import Mathlib

/-!
Verification of the Markdown code generator of the yamlresume repository
(packages/core/src/compiler/codegen/markdown.ts), against its specification.

The document model (`Node`, `Mark`, `Fragment`) and the rendering functions
(`nodeToMarkdown`, `fragmentToMarkdown`, the per-variant renderers, and
`applyMarkToText`) are embedded below as executable Lean definitions that
mirror the TypeScript source line by line.  JavaScript strings are modelled
by Lean `String`, `undefined`-able values by `Option`, and the
`Array.prototype.map` + `join('')` pattern by structural recursion over
lists.  The regex `replace(/\n+$/, '')` is modelled by
`stripTrailingNewlines`.
-/

namespace YamlResume

/-- Modelled from the spec: `CodeGenerationContext` lives in
`compiler/codegen/interface.ts`, which is not part of the provided sources.
The spec describes it as an optional read-only configuration object reserved
for per-format layout knobs such as indent width and wrap column, with no
option active today. -/
structure CodeGenerationContext where
  indentWidth : Option Nat
  wrapColumn : Option Nat
deriving Repr, DecidableEq

/-- The kind tag of an inline mark: `'bold' | 'italic' | 'link'`. -/
inductive MarkType where
  | bold
  | italic
  | link
deriving Repr, DecidableEq

/-- The attribute bag a mark may carry; the renderer only ever reads the
optional `href` field (`mark.attrs?.href ?? ''`). -/
structure MarkAttrs where
  href : Option String
deriving Repr, DecidableEq

/-- An inline mark: a kind tag plus an optional attribute bag. -/
structure Mark where
  type : MarkType
  attrs : Option MarkAttrs
deriving Repr, DecidableEq

/-- The attribute bag of an ordered list: an optional `start` number. -/
structure OrderedListAttrs where
  start : Option Int
deriving Repr, DecidableEq

/-- The document tree: a closed set of tagged node variants.  Every variant
except `text` carries an optional `Fragment` (`Option (List Node)`); `text`
carries a literal string and an optional mark sequence. -/
inductive Node where
  | doc (content : Option (List Node))
  | bulletList (content : Option (List Node))
  | orderedList (attrs : Option OrderedListAttrs) (content : Option (List Node))
  | listItem (content : Option (List Node))
  | paragraph (content : Option (List Node))
  | text (text : String) (marks : Option (List Mark))
deriving Repr

/-- A `Fragment` is an optionally absent ordered sequence of child nodes. -/
abbrev Fragment := Option (List Node)

/-- `itemContent.replace(/\n+$/, '')`: remove every trailing newline
character from a string. -/
def stripTrailingNewlines (s : String) : String :=
  String.mk ((s.data.reverse.dropWhile (fun c => c == '\n')).reverse)

/-- `applyMarkToText(text, mark, _context)`: wrap the current string
according to the mark's kind; a `link` mark reads `mark.attrs?.href ?? ''`. -/
def applyMarkToText (text : String) (mark : Mark)
    (_context : Option CodeGenerationContext) : String :=
  match mark.type with
  | .bold => "**" ++ text ++ "**"
  | .italic => "*" ++ text ++ "*"
  | .link => "[" ++ text ++ "](" ++ ((mark.attrs.bind MarkAttrs.href).getD "") ++ ")"

/-- `textNodeToMarkdown(node, context)`: the literal text when `marks` is
absent, otherwise the left fold of `applyMarkToText` over the mark sequence
starting from the literal (`node.marks.reduce(...)`). -/
def textNodeToMarkdown (text : String) (marks : Option (List Mark))
    (context : Option CodeGenerationContext) : String :=
  match marks with
  | none => text
  | some ms => ms.foldl (fun t m => applyMarkToText t m context) text

mutual

/-- `nodeToMarkdown(node, context)`: exhaustive dispatch on the node's
variant tag. -/
def nodeToMarkdown (node : Node) (context : Option CodeGenerationContext) :
    String :=
  match node with
  | .bulletList content => bulletListNodeToMarkdown content context
  | .doc content => docNodeToMarkdown content context
  | .listItem content => listItemNodeToMarkdown content context
  | .orderedList attrs content => orderedListNodeToMarkdown attrs content context
  | .paragraph content => paragraphNodeToMarkdown content context
  | .text t marks => textNodeToMarkdown t marks context
termination_by (sizeOf node, 0)

/-- `bulletListNodeToMarkdown(node, context)`: render the fragment. -/
def bulletListNodeToMarkdown (content : Fragment)
    (context : Option CodeGenerationContext) : String :=
  fragmentToMarkdown content context
termination_by (sizeOf content, 2)

/-- `docNodeToMarkdown(node, context)`: render the fragment. -/
def docNodeToMarkdown (content : Fragment)
    (context : Option CodeGenerationContext) : String :=
  fragmentToMarkdown content context
termination_by (sizeOf content, 2)

/-- `listItemNodeToMarkdown(node, context)`: render the fragment, strip
trailing newlines, emit `"- " + cleanContent + "\n"`. -/
def listItemNodeToMarkdown (content : Fragment)
    (context : Option CodeGenerationContext) : String :=
  "- " ++ stripTrailingNewlines (fragmentToMarkdown content context) ++ "\n"
termination_by (sizeOf content, 2)

/-- `orderedListNodeToMarkdown(node, context)`: `''` when content is
undefined, otherwise the items mapped with an incrementing counter starting
at `node.attrs?.start ?? 1` and joined with `''`. -/
def orderedListNodeToMarkdown (attrs : Option OrderedListAttrs)
    (content : Fragment) (context : Option CodeGenerationContext) : String :=
  match content with
  | none => ""
  | some items =>
      orderedItemsToMarkdown ((attrs.bind OrderedListAttrs.start).getD 1)
        items context
termination_by (sizeOf content, 2)

/-- The `listItem` branch of the map body of `orderedListNodeToMarkdown`:
`` `${currentNumber}. ${cleanContent}\n` `` where `cleanContent` is the
item's rendered fragment with trailing newlines stripped. -/
def orderedItemLine (currentNumber : Int) (c : Fragment)
    (context : Option CodeGenerationContext) : String :=
  toString currentNumber ++ ". " ++
    stripTrailingNewlines (fragmentToMarkdown c context) ++ "\n"
termination_by (sizeOf c, 2)

/-- The `node.content.map((item) => ...).join('')` body of
`orderedListNodeToMarkdown`: a `listItem` entry contributes
`currentNumber + ". " + cleanContent + "\n"` and bumps the counter; any
other entry contributes `''` and leaves the counter unchanged. -/
def orderedItemsToMarkdown (currentNumber : Int) (items : List Node)
    (context : Option CodeGenerationContext) : String :=
  match items with
  | [] => ""
  | item :: rest =>
      match item with
      | .listItem c =>
          orderedItemLine currentNumber c context ++
            orderedItemsToMarkdown (currentNumber + 1) rest context
      | _ => "" ++ orderedItemsToMarkdown currentNumber rest context
termination_by (sizeOf items, 2)

/-- `paragraphNodeToMarkdown(node, context)`: `'\n'` when the content is
undefined or empty, otherwise the rendered fragment followed by `'\n\n'`. -/
def paragraphNodeToMarkdown (content : Fragment)
    (context : Option CodeGenerationContext) : String :=
  match content with
  | none => "\n"
  | some [] => "\n"
  | some (n :: rest) => fragmentToMarkdown (some (n :: rest)) context ++ "\n\n"
termination_by (sizeOf content, 2)

/-- `fragmentToMarkdown(fragment, context)`: `''` when the fragment is
undefined, otherwise `fragment.map((node) => nodeToMarkdown(node, context))
.join('')`. -/
def fragmentToMarkdown (fragment : Fragment)
    (context : Option CodeGenerationContext) : String :=
  match fragment with
  | none => ""
  | some l => fragmentListToMarkdown l context
termination_by (sizeOf fragment, 1)

/-- The `map` + `join('')` of `fragmentToMarkdown`, as structural recursion:
concatenate the rendering of each node in order. -/
def fragmentListToMarkdown (l : List Node)
    (context : Option CodeGenerationContext) : String :=
  match l with
  | [] => ""
  | n :: rest => nodeToMarkdown n context ++ fragmentListToMarkdown rest context
termination_by (sizeOf l, 0)

end

/-- `MarkdownCodeGenerator.generate(node, context)`: the public entry point
just delegates to `nodeToMarkdown`. -/
def generate (node : Node) (context : Option CodeGenerationContext) : String :=
  nodeToMarkdown node context

/-! ## Auxiliary notions used to state and prove the properties -/

/-- The number of newline characters at the very end of a string. -/
def trailingNewlineCount (s : String) : Nat :=
  (s.data.reverse.takeWhile (fun c => c == '\n')).length

/-- Whether a node is a `listItem` variant. -/
def isListItemNode : Node → Bool
  | .listItem _ => true
  | _ => false

/-- The fragments of the `listItem` entries of a list of nodes, in document
order, skipping entries of any other variant. -/
def listItemFragments (items : List Node) : List Fragment :=
  items.filterMap (fun n =>
    match n with
    | .listItem c => some c
    | _ => none)

/-- Concatenation of a list of strings with no separator (`join('')`). -/
def concatStrings : List String → String
  | [] => ""
  | s :: rest => s ++ concatStrings rest

/-- Spec-side formulation of a single mark application, written after the
spec's words: `bold` wraps with a doubled delimiter, `italic` with a single
delimiter, and `link` wraps as a link construct whose destination is the
mark's `href`, an absent attribute bag or absent `href` giving an empty
destination. -/
def applyMarkSpec (s : String) (m : Mark) : String :=
  match m.type with
  | .bold => "**" ++ s ++ "**"
  | .italic => "*" ++ s ++ "*"
  | .link =>
      match m.attrs with
      | none => "[" ++ s ++ "]()"
      | some a =>
          match a.href with
          | none => "[" ++ s ++ "]()"
          | some h => "[" ++ s ++ "](" ++ h ++ ")"

/-- Spec-side formulation of text-node rendering, written after the spec's
words: the literal when the mark sequence is absent, otherwise the left
fold of mark application over the sequence starting from the literal. -/
def textRenderingSpec (t : String) (marks : Option (List Mark)) : String :=
  match marks with
  | none => t
  | some ms => ms.foldl applyMarkSpec t

/-! ## Helper lemmas -/

theorem data_stripTrailingNewlines (s : String) :
    (stripTrailingNewlines s).data =
      (s.data.reverse.dropWhile (fun c => c == '\n')).reverse := rfl

theorem takeWhile_append_eq_nil {p : Char → Bool} {l₁ l₂ : List Char}
    (h₁ : l₁.takeWhile p = []) (h₂ : l₁ = [] → l₂.takeWhile p = []) :
    (l₁ ++ l₂).takeWhile p = [] := by
  cases l₁ with
  | nil => simpa using h₂ rfl
  | cons c cs =>
      rw [List.takeWhile_cons] at h₁
      rw [List.cons_append, List.takeWhile_cons]
      split
      · simp_all
      · rfl

theorem takeWhile_dropWhile_eq_nil (p : Char → Bool) (l : List Char) :
    (l.dropWhile p).takeWhile p = [] := by
  have h := List.head?_dropWhile_not p l
  cases hd : l.dropWhile p with
  | nil => rfl
  | cons c cs =>
      rw [hd] at h
      simp only [List.head?_cons] at h
      rw [List.takeWhile_cons, h]
      simp

theorem trailingNewlineCount_eq_zero (s : String)
    (h : s.data.reverse.takeWhile (fun c => c == '\n') = []) :
    trailingNewlineCount s = 0 := by
  simp [trailingNewlineCount, h]

theorem trailingNewlineCount_append_strip (a s : String)
    (ha : a.data.reverse.takeWhile (fun c => c == '\n') = []) :
    trailingNewlineCount (a ++ stripTrailingNewlines s) = 0 := by
  apply trailingNewlineCount_eq_zero
  rw [String.data_append, List.reverse_append, data_stripTrailingNewlines,
    List.reverse_reverse]
  exact takeWhile_append_eq_nil
    (takeWhile_dropWhile_eq_nil _ _) (fun _ => ha)

theorem trailingNewlineCount_append_newline (t : String)
    (h : trailingNewlineCount t = 0) :
    trailingNewlineCount (t ++ "\n") = 1 := by
  have ht : t.data.reverse.takeWhile (fun c => c == '\n') = [] := by
    simpa [trailingNewlineCount] using h
  simp [trailingNewlineCount, ht]

/-! ## Claim theorems -/

theorem applyMarkToText_eq_spec (t : String) (m : Mark)
    (ctx : Option CodeGenerationContext) :
    applyMarkToText t m ctx = applyMarkSpec t m := by
  obtain ⟨ty, attrs⟩ := m
  cases ty with
  | bold => rfl
  | italic => rfl
  | link =>
      cases attrs with
      | none =>
          apply String.ext
          simp [applyMarkToText, applyMarkSpec]
      | some a =>
          obtain ⟨href⟩ := a
          cases href with
          | none =>
              apply String.ext
              simp [applyMarkToText, applyMarkSpec]
          | some h => rfl

/-- **C1.** Text-node rendering: the literal when the mark sequence is
absent, otherwise the left fold of per-mark wrapping over the sequence
starting from the literal, with bold doubling the delimiter, italic using a
single delimiter, and link wrapping with the mark's href (absent bag or
absent href giving the empty destination). -/
theorem textNode_rendering_correct (t : String) (marks : Option (List Mark))
    (ctx : Option CodeGenerationContext) :
    textNodeToMarkdown t marks ctx = textRenderingSpec t marks := by
  cases marks with
  | none => rfl
  | some ms =>
      simp only [textNodeToMarkdown, textRenderingSpec]
      induction ms generalizing t with
      | nil => rfl
      | cons m rest ih =>
          simp only [List.foldl_cons, applyMarkToText_eq_spec, ih]

/-- **C4.** doc, bulletList and orderedList render the empty string on an
absent or empty fragment; paragraph renders a single newline on both; in
each variant the absent and the empty fragment render identically. -/
theorem empty_fragment_rendering (ctx : Option CodeGenerationContext)
    (attrs : Option OrderedListAttrs) :
    nodeToMarkdown (.doc none) ctx = "" ∧
    nodeToMarkdown (.doc (some [])) ctx = "" ∧
    nodeToMarkdown (.bulletList none) ctx = "" ∧
    nodeToMarkdown (.bulletList (some [])) ctx = "" ∧
    nodeToMarkdown (.orderedList attrs none) ctx = "" ∧
    nodeToMarkdown (.orderedList attrs (some [])) ctx = "" ∧
    nodeToMarkdown (.paragraph none) ctx = "\n" ∧
    nodeToMarkdown (.paragraph (some [])) ctx = "\n" := by
  refine ⟨?_, ?_, ?_, ?_, ?_, ?_, ?_, ?_⟩ <;>
    simp [nodeToMarkdown, docNodeToMarkdown, bulletListNodeToMarkdown,
      orderedListNodeToMarkdown, orderedItemsToMarkdown,
      paragraphNodeToMarkdown, fragmentToMarkdown, fragmentListToMarkdown]

/-- **C7.** A text node carrying a link mark with an absent attribute bag,
or a bag with an absent href, renders as the link construct with an empty
destination. -/
theorem link_mark_missing_href (t : String)
    (ctx : Option CodeGenerationContext) :
    nodeToMarkdown (.text t (some [⟨.link, none⟩])) ctx = "[" ++ t ++ "]()" ∧
    nodeToMarkdown (.text t (some [⟨.link, some ⟨none⟩⟩])) ctx =
      "[" ++ t ++ "]()" := by
  constructor <;>
    · apply String.ext
      simp [nodeToMarkdown, textNodeToMarkdown, applyMarkToText]

/-- **C9.** For every literal, the mark sequences `[bold, italic]` and
`[italic, bold]` render the identical string: three delimiter characters on
each side of the literal. -/
theorem mark_order_same_delimiters (t : String) (a₁ a₂ : Option MarkAttrs)
    (ctx : Option CodeGenerationContext) :
    textNodeToMarkdown t (some [⟨.bold, a₁⟩, ⟨.italic, a₂⟩]) ctx =
        "***" ++ t ++ "***" ∧
    textNodeToMarkdown t (some [⟨.italic, a₁⟩, ⟨.bold, a₂⟩]) ctx =
        "***" ++ t ++ "***" := by
  constructor <;>
    · apply String.ext
      simp [textNodeToMarkdown, applyMarkToText]

/-- The nested-list scenario of the spec: a `listItem` holding a paragraph
"Outer item" followed by a nested `bulletList` whose single item is a
paragraph "Nested item". -/
def nestedListItemScenario : Node :=
  .listItem (some [.paragraph (some [.text "Outer item" none]),
    .bulletList (some [.listItem (some [.paragraph (some [.text "Nested item" none])])])])

/-- **C2.** A listItem renders as its fragment's block-dispatch output with
all trailing newlines stripped, between the "- " marker and exactly one
trailing newline; the nested scenario renders exactly
"- Outer item\n\n- Nested item\n". -/
theorem listItem_trim_and_single_line :
    (∀ (content : Fragment) (ctx : Option CodeGenerationContext),
      nodeToMarkdown (.listItem content) ctx =
        "- " ++ stripTrailingNewlines (fragmentToMarkdown content ctx) ++ "\n") ∧
    nodeToMarkdown nestedListItemScenario none =
      "- Outer item\n\n- Nested item\n" := by
  constructor
  · intro content ctx
    simp [nodeToMarkdown, listItemNodeToMarkdown]
  · simp [nestedListItemScenario, nodeToMarkdown, listItemNodeToMarkdown,
      bulletListNodeToMarkdown, paragraphNodeToMarkdown, fragmentToMarkdown,
      fragmentListToMarkdown, textNodeToMarkdown, stripTrailingNewlines]

theorem infix_applyMarkToText {x : List Char} (s : String) (m : Mark)
    (ctx : Option CodeGenerationContext) (h : x <:+: s.data) :
    x <:+: (applyMarkToText s m ctx).data := by
  have hmid : ∀ (a b : String), x <:+: (a ++ s ++ b).data := by
    intro a b
    exact h.trans ⟨a.data, b.data, by simp⟩
  obtain ⟨ty, attrs⟩ := m
  cases ty with
  | bold => exact hmid "**" "**"
  | italic => exact hmid "*" "*"
  | link =>
      have he : applyMarkToText s ⟨.link, attrs⟩ ctx =
          "[" ++ s ++ ("](" ++ ((attrs.bind MarkAttrs.href).getD "") ++ ")") := by
        apply String.ext
        simp [applyMarkToText]
      rw [he]
      exact hmid "[" ("](" ++ ((attrs.bind MarkAttrs.href).getD "") ++ ")")

/-- **C10.** The rendered output of a text node embeds the literal
character-for-character as a contiguous substring, for every mark sequence
(no escaping); and a link mark's href appears verbatim inside the link
construct. -/
theorem literal_embedded_verbatim :
    (∀ (t : String) (marks : Option (List Mark))
        (ctx : Option CodeGenerationContext),
      t.data <:+: (nodeToMarkdown (.text t marks) ctx).data) ∧
    (∀ (s href : String) (ctx : Option CodeGenerationContext),
      href.data <:+: (applyMarkToText s ⟨.link, some ⟨some href⟩⟩ ctx).data) := by
  constructor
  · intro t marks ctx
    have base : ∀ (ms : List Mark) (s : String), t.data <:+: s.data →
        t.data <:+: (ms.foldl (fun a m => applyMarkToText a m ctx) s).data := by
      intro ms
      induction ms with
      | nil => intro s h; exact h
      | cons m rest ih =>
          intro s h
          simp only [List.foldl_cons]
          exact ih _ (infix_applyMarkToText s m ctx h)
    cases marks with
    | none =>
        have he : nodeToMarkdown (.text t none) ctx = t := by
          simp [nodeToMarkdown, textNodeToMarkdown]
        rw [he]
    | some ms =>
        have he : nodeToMarkdown (.text t (some ms)) ctx =
            ms.foldl (fun a m => applyMarkToText a m ctx) t := by
          simp [nodeToMarkdown, textNodeToMarkdown]
        rw [he]
        exact base ms t (List.infix_refl _)
  · intro s href ctx
    have he : applyMarkToText s ⟨.link, some ⟨some href⟩⟩ ctx =
        ("[" ++ s ++ "](") ++ href ++ ")" := by
      apply String.ext
      simp [applyMarkToText]
    rw [he]
    exact ⟨("[" ++ s ++ "](").data, ")".data, by simp⟩

/-- **C5.** A rendered listItem ends with exactly one newline, and so does
each per-item line emitted inside an orderedList rendering, regardless of
how many trailing newlines the item's content contained before trimming. -/
theorem listItem_exactly_one_trailing_newline :
    (∀ (content : Fragment) (ctx : Option CodeGenerationContext),
      trailingNewlineCount (nodeToMarkdown (.listItem content) ctx) = 1) ∧
    (∀ (n : Int) (c : Fragment) (ctx : Option CodeGenerationContext),
      trailingNewlineCount (orderedItemLine n c ctx) = 1) := by
  constructor
  · intro content ctx
    have h : nodeToMarkdown (.listItem content) ctx =
        ("- " ++ stripTrailingNewlines (fragmentToMarkdown content ctx)) ++
          "\n" := by
      apply String.ext
      simp [nodeToMarkdown, listItemNodeToMarkdown]
    rw [h]
    apply trailingNewlineCount_append_newline
    apply trailingNewlineCount_append_strip
    decide
  · intro n c ctx
    have h : orderedItemLine n c ctx =
        ((toString n ++ ". ") ++
          stripTrailingNewlines (fragmentToMarkdown c ctx)) ++ "\n" := by
      apply String.ext
      simp [orderedItemLine]
    rw [h]
    apply trailingNewlineCount_append_newline
    apply trailingNewlineCount_append_strip
    rw [String.data_append, List.reverse_append]
    apply takeWhile_append_eq_nil
    · decide
    · intro hnil
      exact absurd hnil (by decide)

theorem string_empty_append (s : String) : "" ++ s = s := by
  apply String.ext
  simp

theorem orderedItemsToMarkdown_eq_mapIdx (start : Int) (items : List Node)
    (ctx : Option CodeGenerationContext) :
    orderedItemsToMarkdown start items ctx =
      concatStrings ((listItemFragments items).mapIdx
        (fun i c => orderedItemLine (start + (i : Int)) c ctx)) := by
  induction items generalizing start with
  | nil => simp [orderedItemsToMarkdown, listItemFragments, concatStrings]
  | cons item rest ih =>
      cases item with
      | listItem c =>
          simp only [orderedItemsToMarkdown, listItemFragments,
            List.filterMap_cons, List.mapIdx_cons, concatStrings]
          rw [ih (start + 1)]
          have hfun : (fun (i : Nat) (c : Fragment) =>
                orderedItemLine ((start + 1) + (i : Int)) c ctx) =
              (fun (i : Nat) (c : Fragment) =>
                orderedItemLine (start + ((i : Int) + 1)) c ctx) := by
            funext i c
            congr 1
            ring
          rw [hfun]
          simp [listItemFragments]
      | doc f =>
          simp only [orderedItemsToMarkdown, listItemFragments,
            List.filterMap_cons, string_empty_append]
          exact ih start
      | bulletList f =>
          simp only [orderedItemsToMarkdown, listItemFragments,
            List.filterMap_cons, string_empty_append]
          exact ih start
      | orderedList a f =>
          simp only [orderedItemsToMarkdown, listItemFragments,
            List.filterMap_cons, string_empty_append]
          exact ih start
      | paragraph f =>
          simp only [orderedItemsToMarkdown, listItemFragments,
            List.filterMap_cons, string_empty_append]
          exact ih start
      | text t marks =>
          simp only [orderedItemsToMarkdown, listItemFragments,
            List.filterMap_cons, string_empty_append]
          exact ih start

/-- A listItem of the ordered-list scenario: one paragraph with text "Item". -/
def orderedScenarioItem : Node :=
  .listItem (some [.paragraph (some [.text "Item" none])])

/-- **C3.** Ordinal numbering of orderedList: the i-th listItem entry
(counting only listItem entries, in document order, from 0) is rendered as
the line with ordinal start + i, where start is attrs.start when present
and 1 otherwise, accepted verbatim; the start = 5 scenario renders
"5. Item\n6. Item\n". -/
theorem orderedList_ordinal_numbering :
    (∀ (attrs : Option OrderedListAttrs) (items : List Node)
        (ctx : Option CodeGenerationContext),
      nodeToMarkdown (.orderedList attrs (some items)) ctx =
        concatStrings ((listItemFragments items).mapIdx
          (fun i c =>
            orderedItemLine ((attrs.bind OrderedListAttrs.start).getD 1 +
              (i : Int)) c ctx))) ∧
    nodeToMarkdown (.orderedList (some ⟨some 5⟩)
        (some [orderedScenarioItem, orderedScenarioItem])) none =
      "5. Item\n6. Item\n" := by
  constructor
  · intro attrs items ctx
    simp only [nodeToMarkdown, orderedListNodeToMarkdown]
    exact orderedItemsToMarkdown_eq_mapIdx _ items ctx
  · simp only [nodeToMarkdown, orderedListNodeToMarkdown, orderedScenarioItem,
      orderedItemsToMarkdown, orderedItemLine, paragraphNodeToMarkdown,
      fragmentToMarkdown, fragmentListToMarkdown, textNodeToMarkdown,
      stripTrailingNewlines]
    decide

theorem fragmentListToMarkdown_eq_concat (items : List Node)
    (ctx : Option CodeGenerationContext) :
    fragmentListToMarkdown items ctx =
      concatStrings (items.map (fun n => nodeToMarkdown n ctx)) := by
  induction items with
  | nil => simp [fragmentListToMarkdown, concatStrings]
  | cons n rest ih =>
      simp only [fragmentListToMarkdown, List.map_cons, concatStrings]
      rw [ih]

/-- **C6 counterexample.** A bulletList whose content holds one entry that
is not a listItem (a paragraph with text "x") renders that entry's full
paragraph rendering "x\n\n", which is not the empty string, so non-listItem
entries of a bulletList are not skipped as empty contributions. -/
theorem bulletList_nonListItem_entry_not_skipped :
    nodeToMarkdown (.bulletList (some [.paragraph (some [.text "x" none])]))
        none = "x\n\n" ∧
    ("x\n\n" : String) ≠ "" := by
  constructor
  · simp only [nodeToMarkdown, bulletListNodeToMarkdown, fragmentToMarkdown,
      fragmentListToMarkdown, paragraphNodeToMarkdown, textNodeToMarkdown]
    decide
  · decide

/-- **C6 amended.** In an orderedList, entries that are not listItem nodes
contribute the empty string (the rendering equals that of the content with
non-listItem entries filtered out, with unchanged numbering); in a
bulletList, every entry — listItem or not — is rendered through the general
node dispatch, so a non-listItem entry contributes its own full rendering
rather than the empty string; neither case raises an error. -/
theorem list_nonListItem_entries_handling :
    (∀ (current : Int) (items : List Node)
        (ctx : Option CodeGenerationContext),
      orderedItemsToMarkdown current items ctx =
        orderedItemsToMarkdown current (items.filter isListItemNode) ctx) ∧
    (∀ (items : List Node) (ctx : Option CodeGenerationContext),
      nodeToMarkdown (.bulletList (some items)) ctx =
        concatStrings (items.map (fun n => nodeToMarkdown n ctx))) := by
  constructor
  · intro current items ctx
    induction items generalizing current with
    | nil => simp [List.filter]
    | cons item rest ih =>
        cases item with
        | listItem c =>
            simp only [List.filter_cons, isListItemNode, if_pos]
            simp only [orderedItemsToMarkdown]
            rw [ih (current + 1)]
        | doc f =>
            simp only [List.filter_cons, isListItemNode]
            simp only [orderedItemsToMarkdown, string_empty_append]
            exact ih current
        | bulletList f =>
            simp only [List.filter_cons, isListItemNode]
            simp only [orderedItemsToMarkdown, string_empty_append]
            exact ih current
        | orderedList a f =>
            simp only [List.filter_cons, isListItemNode]
            simp only [orderedItemsToMarkdown, string_empty_append]
            exact ih current
        | paragraph f =>
            simp only [List.filter_cons, isListItemNode]
            simp only [orderedItemsToMarkdown, string_empty_append]
            exact ih current
        | text t marks =>
            simp only [List.filter_cons, isListItemNode]
            simp only [orderedItemsToMarkdown, string_empty_append]
            exact ih current
  · intro items ctx
    simp only [nodeToMarkdown, bulletListNodeToMarkdown, fragmentToMarkdown]
    exact fragmentListToMarkdown_eq_concat items ctx

theorem textNodeToMarkdown_context_irrelevant (t : String)
    (marks : Option (List Mark)) (c₁ c₂ : Option CodeGenerationContext) :
    textNodeToMarkdown t marks c₁ = textNodeToMarkdown t marks c₂ := by
  cases marks with
  | none => rfl
  | some ms =>
      simp only [textNodeToMarkdown]
      have h : (fun (t : String) (m : Mark) => applyMarkToText t m c₁) =
          (fun (t : String) (m : Mark) => applyMarkToText t m c₂) := by
        funext a m
        rw [applyMarkToText_eq_spec, applyMarkToText_eq_spec]
      rw [h]

theorem nodeToMarkdown_context_irrelevant :
    ∀ (node : Node) (c₁ : Option CodeGenerationContext),
      ∀ c₂, nodeToMarkdown node c₁ = nodeToMarkdown node c₂ := by
  refine nodeToMarkdown.induct
    (fun node c₁ => ∀ c₂, nodeToMarkdown node c₁ = nodeToMarkdown node c₂)
    (fun content c₁ => ∀ c₂,
      paragraphNodeToMarkdown content c₁ = paragraphNodeToMarkdown content c₂)
    (fun f c₁ => ∀ c₂, fragmentToMarkdown f c₁ = fragmentToMarkdown f c₂)
    (fun l c₁ => ∀ c₂,
      fragmentListToMarkdown l c₁ = fragmentListToMarkdown l c₂)
    (fun attrs content c₁ => ∀ c₂,
      orderedListNodeToMarkdown attrs content c₁ =
        orderedListNodeToMarkdown attrs content c₂)
    (fun cur items c₁ => ∀ c₂,
      orderedItemsToMarkdown cur items c₁ = orderedItemsToMarkdown cur items c₂)
    (fun cur c c₁ => ∀ c₂, orderedItemLine cur c c₁ = orderedItemLine cur c c₂)
    (fun content c₁ => ∀ c₂,
      listItemNodeToMarkdown content c₁ = listItemNodeToMarkdown content c₂)
    (fun content c₁ => ∀ c₂,
      docNodeToMarkdown content c₁ = docNodeToMarkdown content c₂)
    (fun content c₁ => ∀ c₂,
      bulletListNodeToMarkdown content c₁ = bulletListNodeToMarkdown content c₂)
    ?_ ?_ ?_ ?_ ?_ ?_ ?_ ?_ ?_ ?_ ?_ ?_ ?_ ?_ ?_ ?_ ?_ ?_ ?_ ?_ ?_ ?_
  · intro ctx content ih c₂
    simp only [nodeToMarkdown]
    exact ih c₂
  · intro ctx content ih c₂
    simp only [nodeToMarkdown]
    exact ih c₂
  · intro ctx content ih c₂
    simp only [nodeToMarkdown]
    exact ih c₂
  · intro ctx attrs content ih c₂
    simp only [nodeToMarkdown]
    exact ih c₂
  · intro ctx content ih c₂
    simp only [nodeToMarkdown]
    exact ih c₂
  · intro ctx t marks c₂
    simp only [nodeToMarkdown]
    exact textNodeToMarkdown_context_irrelevant t marks ctx c₂
  · intro ctx c₂
    simp only [paragraphNodeToMarkdown]
  · intro ctx c₂
    simp only [paragraphNodeToMarkdown]
  · intro ctx n rest ih c₂
    simp only [paragraphNodeToMarkdown]
    rw [ih c₂]
  · intro ctx c₂
    simp only [fragmentToMarkdown]
  · intro ctx items ih c₂
    simp only [fragmentToMarkdown]
    exact ih c₂
  · intro ctx c₂
    simp only [fragmentListToMarkdown]
  · intro ctx item rest ih₁ ih₂ c₂
    simp only [fragmentListToMarkdown]
    rw [ih₁ c₂, ih₂ c₂]
  · intro attrs ctx c₂
    simp only [orderedListNodeToMarkdown]
  · intro attrs ctx items ih c₂
    simp only [orderedListNodeToMarkdown]
    exact ih c₂
  · intro cur ctx c₂
    simp only [orderedItemsToMarkdown]
  · intro cur ctx rest c ih₁ ih₂ c₂
    simp only [orderedItemsToMarkdown]
    rw [ih₁ c₂, ih₂ c₂]
  · intro cur ctx item rest hne ih c₂
    cases item with
    | listItem c => exact (hne c rfl).elim
    | doc f =>
        simp only [orderedItemsToMarkdown]
        rw [ih c₂]
    | bulletList f =>
        simp only [orderedItemsToMarkdown]
        rw [ih c₂]
    | orderedList a f =>
        simp only [orderedItemsToMarkdown]
        rw [ih c₂]
    | paragraph f =>
        simp only [orderedItemsToMarkdown]
        rw [ih c₂]
    | text t marks =>
        simp only [orderedItemsToMarkdown]
        rw [ih c₂]
  · intro cur c ctx ih c₂
    simp only [orderedItemLine]
    rw [ih c₂]
  · intro content ctx ih c₂
    simp only [listItemNodeToMarkdown]
    rw [ih c₂]
  · intro content ctx ih c₂
    simp only [docNodeToMarkdown]
    exact ih c₂
  · intro content ctx ih c₂
    simp only [bulletListNodeToMarkdown]
    exact ih c₂

/-- **C8.** The Markdown generate entry point is deterministic and
context-independent: for every node and any two optional context values the
generated strings coincide, so the output is a pure function of the node
tree alone. -/
theorem generate_context_independent (node : Node)
    (c₁ c₂ : Option CodeGenerationContext) :
    generate node c₁ = generate node c₂ := by
  simp only [generate]
  exact nodeToMarkdown_context_irrelevant node c₁ c₂

end YamlResume
